import Mathlib

/-!
Verification of the `codetype` typing-session engine (`codetype/base.py`).

The engine (`TypedText`) owns a flat logical text (the practice lines joined
with a trailing newline each), a word-wrapped visual layout (the sorted list
`rich_lines_start_idxs` of visual-line start offsets plus the rendered plain
text of each visual row), a cursor (`curr_idx`), a per-offset action log
(`actions`), back references for multi-step undo (`back_idxs`), the session
clock (`start_ts` / `end_ts`) and a styling overlay on the rendered rows.

The wrapping itself and the per-token syntax styles are produced by the
external `rich` rendering library (the spec's "Rendering/Styling service");
the model therefore takes the wrap output (start offsets and rendered plain
rows) as data, and takes the console style lookups, the fixed styles and the
luminance-shift recoloring as an opaque context `Ctx`.  Styles are modelled
as opaque numeric identifiers.  Timestamps are modelled as natural-number
clock ticks; `datetime` subtraction is integer subtraction of ticks.
-/

namespace Codetype

/-- Python `str.isspace` on a single character, restricted to the ASCII
whitespace characters that can occur in the engine's texts. -/
def pyIsSpace (c : Char) : Bool :=
  c = ' ' || c = '\t' || c = '\n' || c = '\r' || c = '\x0b' || c = '\x0c'

/-- Python `str.isspace` on a string: true iff nonempty and all whitespace
(`"".isspace()` is `False`). -/
def str_isspace (cs : List Char) : Bool :=
  !cs.isEmpty && cs.all pyIsSpace

/-- Length of the longest prefix satisfying `p`; models
`sum(1 for _ in itertools.takewhile(p, xs))`. -/
def countWhile (p : Char → Bool) : List Char → Nat
  | [] => 0
  | c :: cs => if p c then countWhile p cs + 1 else 0

/-- Fuel-bounded helper for the decimal digit count. -/
def decimalDigitsAux : Nat → Nat → Nat
  | 0, _ => 0
  | fuel + 1, n => if n = 0 then 0 else decimalDigitsAux fuel (n / 10) + 1

/-- Decimal digit count `len(str(n))` for a natural number `n`. -/
def decimalDigits (n : Nat) : Nat :=
  if n = 0 then 1 else decimalDigitsAux n n

/-- Lookup in a Python dict modelled as an association list. -/
def dictGet? (d : List (Nat × Nat)) (k : Nat) : Option Nat :=
  (d.find? (fun p => p.1 == k)).map (fun p => p.2)

/-- Assignment `d[k] = v` in a Python dict modelled as an association list:
the new binding shadows (replaces) any previous binding of `k`. -/
def dictSet (d : List (Nat × Nat)) (k v : Nat) : List (Nat × Nat) :=
  (k, v) :: d.eraseP (fun p => p.1 == k)

/-- Python `bisect.bisect(xs, x)` (right bisection point); on a sorted list this is
the number of elements `≤ x`, i.e. the index of the first element `> x`. -/
def bisect_right (xs : List Nat) (x : Nat) : Nat :=
  match xs with
  | [] => 0
  | y :: ys => if x < y then 0 else bisect_right ys x + 1

/-- Models `TypedText.get_rich_line_no`: map a logical offset to
`(visual line index, column)` by right-bisecting the sorted start-offset
list.  (Python's `-1` index cannot occur in engine states because the first
start offset is `0`; out-of-range reads are totalized with `getD`.) -/
def get_rich_line_no (starts : List Nat) (idx : Nat) : Nat × Nat :=
  (bisect_right starts idx - 1, idx - starts.getD (bisect_right starts idx - 1) 0)

/-- A styling span `(start, stop, style)` recorded on a rendered row, as
appended by `rich.text.Text.stylize`. -/
abbrev Span := Nat × Nat × Nat

/-- Models `rich.text.Text.stylize(style, start, stop)` on a row of plain length
`plainLen`: appends the clipped span unless it is empty or out of range. -/
def stylize (plainLen : Nat) (spans : List Span) (sty st en : Nat) : List Span :=
  if st ≥ plainLen || en ≤ st then spans
  else spans ++ [(st, min plainLen en, sty)]

def STATUS_BACKSPACE : Nat := 1
def STATUS_CORRECT : Nat := 2
def STATUS_WRONG : Nat := 3

/-- Canonicalized keys reaching `type_character`: the literal strings
`"backspace"` and `"tab"`, or a single character. -/
inductive Key where
  | backspace
  | tab
  | char (c : Char)
deriving DecidableEq, Repr

/-- One recorded keypress (`Action`): the pressed key, the status after the
press, and its timestamp. -/
structure Action where
  pressed_key : Key
  status : Nat
  ts : Nat
deriving DecidableEq, Repr

/-- The mutable state of a `TypedText` engine (layout data included; see the
module docstring for which fields mirror which attributes). -/
structure EngineState where
  text : List Char
  lines_start_idxs : List Nat
  gutter_col_width : Nat
  width : Nat
  height : Nat
  curr_idx : Nat
  actions : List (List Action)
  back_idxs : List (Nat × Nat)
  start_ts : Option Nat
  end_ts : Option Nat
  rich_lines_start_idxs : List Nat
  orig_rich_plain : List (List Char)
  rich_spans : List (List Span)
deriving DecidableEq, Repr

/-- Opaque rendering context: the console style lookup
`orig_rich_lines[line].get_style_at_offset(console, i)`, the fixed cursor
and wrong styles, and the luminance-shift recoloring
`sty + S.parse(change_color_luminance(sty.color, ...))`. -/
structure Ctx where
  getStyleAt : Nat → Nat → Nat
  cursorStyle : Nat
  wrongStyle : Nat
  darken : Nat → Nat

/-- The word-wrap output installed by `create_rich_lines`: the visual-line
start offsets and each visual row's rendered plain text (gutter and trailing
newline included).  The wrapping is computed by the external `rich` library. -/
structure Layout where
  starts : List Nat
  plains : List (List Char)
deriving DecidableEq, Repr

/-- Apply `stylize` to the overlay spans of one rendered row. -/
def stylizeLine (s : EngineState) (line_idx sty st en : Nat) : EngineState :=
  { s with rich_spans :=
      (s.rich_spans.set line_idx
        (stylize (s.orig_rich_plain.getD line_idx []).length
          (s.rich_spans.getD line_idx []) sty st en)) }

/-- Models `TypedText.style_wrong_char_at`. -/
def style_wrong_char_at (ctx : Ctx) (idx : Nat) (s : EngineState) : EngineState :=
  stylizeLine s (get_rich_line_no s.rich_lines_start_idxs idx).1 ctx.wrongStyle
    ((get_rich_line_no s.rich_lines_start_idxs idx).2 + s.gutter_col_width + 1)
    ((get_rich_line_no s.rich_lines_start_idxs idx).2 + s.gutter_col_width + 1 + 1)

/-- Models `TypedText.style_correct_char_at`: restyle with the original style for a
whitespace character, or a luminance-darkened variant otherwise. -/
def style_correct_char_at (ctx : Ctx) (idx : Nat) (s : EngineState) : EngineState :=
  let line_idx := (get_rich_line_no s.rich_lines_start_idxs idx).1
  let idx2 := (get_rich_line_no s.rich_lines_start_idxs idx).2
  if pyIsSpace (s.text.getD idx ' ') then
    stylizeLine s line_idx (ctx.getStyleAt line_idx (idx2 + s.gutter_col_width + 1))
      (idx2 + s.gutter_col_width + 1) (idx2 + s.gutter_col_width + 1 + 1)
  else
    stylizeLine s line_idx
      (ctx.darken (ctx.getStyleAt line_idx (idx2 + s.gutter_col_width + 1)))
      (idx2 + s.gutter_col_width + 1) (idx2 + s.gutter_col_width + 1 + 1)

/-- Models `TypedText.style_for_backspace_at`: revert the style at `idx` and, for
`idx ≠ 0`, also at the back-reference source.  A missing back reference
raises `KeyError`; the error carries the partially mutated state.
(Note the source reads the style at column `gutter + p_idx + 1` using the
absolute offset `p_idx`, not the column `p_idx2`; modelled as written.) -/
def style_for_backspace_at (ctx : Ctx) (idx : Nat) (s : EngineState) :
    Except EngineState EngineState :=
  let line_idx := (get_rich_line_no s.rich_lines_start_idxs idx).1
  let idx2 := (get_rich_line_no s.rich_lines_start_idxs idx).2
  let s1 := stylizeLine s line_idx (ctx.getStyleAt line_idx (s.gutter_col_width + idx2 + 1))
    (s.gutter_col_width + idx2 + 1) (s.gutter_col_width + idx2 + 2)
  if idx = 0 then .ok s1
  else
    match dictGet? s1.back_idxs idx with
    | none => .error s1
    | some p_idx =>
      let p_line_idx := (get_rich_line_no s1.rich_lines_start_idxs p_idx).1
      let p_idx2 := (get_rich_line_no s1.rich_lines_start_idxs p_idx).2
      .ok (stylizeLine s1 p_line_idx
        (ctx.getStyleAt p_line_idx (s1.gutter_col_width + p_idx + 1))
        (s1.gutter_col_width + p_idx2 + 1) (s1.gutter_col_width + p_idx2 + 2))

/-- The cumulative start offsets of the logical lines (`lines_start_idxs`). -/
def linesStartIdxs (lines : List (List Char)) : List Nat :=
  (lines.foldl (fun acc line => (acc.1 ++ [acc.2], acc.2 + line.length + 1)) (([] : List Nat), 0)).1

/-- Models `TypedText.__init__`: store the lines joined with a trailing newline
each, the logical line start offsets and the gutter width.  The cursor,
action log, back references and layout are only installed by
`update_dimensions` (as in the source, where `__init__` leaves them unset
and `on_mount` calls `update_dimensions` before use). -/
def TypedText_init (lines : List (List Char)) : EngineState :=
  { text := (lines.map (fun l => l ++ ['\n'])).flatten
    lines_start_idxs := linesStartIdxs lines
    gutter_col_width := decimalDigits lines.length + 1
    width := 0
    height := 0
    curr_idx := 0
    actions := []
    back_idxs := []
    start_ts := none
    end_ts := none
    rich_lines_start_idxs := []
    orig_rich_plain := []
    rich_spans := [] }

/-- Models `TypedText.update_dimensions`: store the viewport, reset the cursor,
action log and back references, and rebuild the visual layout
(`create_rich_lines`; the wrap output is the `Layout` argument, and the
fresh `rich_lines` deep copy starts with an empty styling overlay). -/
def update_dimensions (L : Layout) (w h : Nat) (s : EngineState) : EngineState :=
  { s with
    width := w
    height := h
    curr_idx := 0
    actions := List.replicate s.text.length []
    back_idxs := []
    rich_lines_start_idxs := L.starts
    orig_rich_plain := L.plains
    rich_spans := List.replicate L.plains.length [] }

/-- Models `TypedText.n_actions`. -/
def n_actions (s : EngineState) : Nat :=
  (s.actions.map List.length).sum

/-- Models `TypedText.n_backspace_actions`. -/
def n_backspace_actions (s : EngineState) : Nat :=
  (s.actions.map (fun x => (x.filter (fun a => a.status == STATUS_BACKSPACE)).length)).sum

/-- Python `x and x[-1].status == status` for an action list `x`. -/
def lastStatusIs (x : List Action) (status : Nat) : Bool :=
  match x.getLast? with
  | some a => a.status == status
  | none => false

/-- Models `TypedText._n_characters_with_status`: the number of offsets whose last
recorded action has the given status. -/
def n_characters_with_status (s : EngineState) (status : Nat) : Nat :=
  (s.actions.filter (fun x => lastStatusIs x status)).length

/-- Models `TypedText.n_correct_characters`. -/
def n_correct_characters (s : EngineState) : Nat :=
  n_characters_with_status s STATUS_CORRECT

/-- Models `TypedText.n_wrong_characters`. -/
def n_wrong_characters (s : EngineState) : Nat :=
  n_characters_with_status s STATUS_WRONG

/-- Models `TypedText.compute_accuracy`: `correct / (actions − backspaces)` with the
`ZeroDivisionError` handler returning `0`. -/
def compute_accuracy (s : EngineState) : ℚ :=
  if ((n_actions s : ℤ) - (n_backspace_actions s : ℤ)) = 0 then 0
  else (n_correct_characters s : ℚ) / (((n_actions s : ℤ) - (n_backspace_actions s : ℤ) : ℤ) : ℚ)

/-- Models `TypedText.elapsed_seconds` at wall-clock time `now`. -/
def elapsed_seconds (now : Nat) (s : EngineState) : ℤ :=
  match s.start_ts with
  | none => 0
  | some st => (s.end_ts.getD now : ℤ) - (st : ℤ)

/-- Models `TypedText.check_finished` (both commented-out modes reduce in the source
to the cursor test). -/
def check_finished (s : EngineState) : Bool :=
  decide (s.curr_idx ≥ s.text.length)

/-- Models `actions[idx].append(a)`. -/
def appendAction (actions : List (List Action)) (idx : Nat) (a : Action) :
    List (List Action) :=
  actions.set idx (actions.getD idx [] ++ [a])

/-- Outcome of `type_character`: normal return, completion signalled by
raising `ZeroDivisionError` (the state as mutated so far is retained),
`IndexError` for a cursor outside the text (raised before any mutation), or
`KeyError` from a missing back reference during backspace handling. -/
inductive StepResult where
  | ok (s : EngineState)
  | finished (s : EngineState)
  | indexError
  | keyError (s : EngineState)
deriving DecidableEq, Repr

/-- The first-action bookkeeping at the top of `type_character`: set
`start_ts` if it is still unset. -/
def markStart (ts : Nat) (s : EngineState) : EngineState :=
  if s.start_ts = none then { s with start_ts := some ts } else s

/-- Models `TypedText.type_character`, translated branch by branch. -/
def type_character (ctx : Ctx) (ch : Key) (ts : Nat) (s0 : EngineState) : StepResult :=
  if ¬ s0.curr_idx < s0.text.length then .indexError
  else
    let idx := s0.curr_idx
    let s := markStart ts s0
    match ch with
    | .backspace =>
      let s := { s with actions := appendAction s.actions idx ⟨.backspace, STATUS_BACKSPACE, ts⟩ }
      match style_for_backspace_at ctx idx s with
      | .error sE => .keyError sE
      | .ok s1 =>
        .ok { s1 with curr_idx := if idx = 0 then 0 else (dictGet? s1.back_idxs idx).getD 0 }
    | .tab =>
      let s1 :=
        if s.text.getD idx ' ' != ' ' || (idx != 0 && s.text.getD (idx - 1) ' ' != '\n') then
          style_wrong_char_at ctx idx
            { s with actions := appendAction s.actions idx ⟨.tab, STATUS_WRONG, ts⟩ }
        else
          style_correct_char_at ctx idx
            { s with actions := appendAction s.actions idx ⟨.tab, STATUS_CORRECT, ts⟩ }
      let new_index := idx + countWhile pyIsSpace (s1.text.drop idx)
      let s2 := { s1 with curr_idx := min (s1.text.length - 1) new_index }
      let s3 := { s2 with back_idxs := dictSet s2.back_idxs new_index idx }
      if check_finished s3 then .finished { s3 with end_ts := some ts } else .ok s3
    | .char c =>
      let line_idx := (get_rich_line_no s.rich_lines_start_idxs idx).1
      let i0 := (get_rich_line_no s.rich_lines_start_idxs idx).2
      if c = ' ' && str_isspace ((s.orig_rich_plain.getD line_idx []).drop (i0 + s.gutter_col_width + 1)) then
        let s1 := { s with actions := appendAction s.actions idx ⟨.char c, STATUS_CORRECT, ts⟩ }
        let s2 := style_correct_char_at ctx s1.curr_idx s1
        match s2.rich_lines_start_idxs.get? (line_idx + 1) with
        | none => .finished s2
        | some nxt =>
          let s3 := { s2 with curr_idx := nxt }
          let s4 := { s3 with back_idxs := dictSet s3.back_idxs s3.curr_idx idx }
          if check_finished s4 then .finished { s4 with end_ts := some ts } else .ok s4
      else
        let s1 :=
          if c = s.text.getD idx ' ' then
            style_correct_char_at ctx idx
              { s with actions := appendAction s.actions idx ⟨.char c, STATUS_CORRECT, ts⟩ }
          else
            style_wrong_char_at ctx idx
              { s with actions := appendAction s.actions idx ⟨.char c, STATUS_WRONG, ts⟩ }
        let s2 := { s1 with curr_idx := min s1.text.length (idx + 1) }
        let s3 := { s2 with back_idxs := dictSet s2.back_idxs s2.curr_idx idx }
        if check_finished s3 then .finished { s3 with end_ts := some ts } else .ok s3

/-- The engine state after a `type_character` call that produced `r` from
state `s` (exceptions propagate with the object as mutated so far;
`IndexError` is raised before any mutation). -/
def resultState (s : EngineState) : StepResult → EngineState
  | .ok s' => s'
  | .finished s' => s'
  | .keyError s' => s'
  | .indexError => s

/-- Whether the result signals session completion (`ZeroDivisionError`). -/
def isFinished : StepResult → Bool
  | .finished _ => true
  | _ => false

/-- The state after one keystroke, whatever the outcome. -/
def stepState (ctx : Ctx) (ch : Key) (ts : Nat) (s : EngineState) : EngineState :=
  resultState s (type_character ctx ch ts s)

/-- The state after a list of `(key, timestamp)` keystrokes. -/
def runEnd (ctx : Ctx) (s : EngineState) : List (Key × Nat) → EngineState
  | [] => s
  | (k, t) :: tr => runEnd ctx (stepState ctx k t s) tr

/-- Models `TypedText.style_cursor_location`: overlay the cursor style on the
cursor's visual cell (a mutation of `rich_lines`). -/
def style_cursor_location (ctx : Ctx) (s : EngineState) : EngineState :=
  let line_idx := (get_rich_line_no s.rich_lines_start_idxs s.curr_idx).1
  let idx := (get_rich_line_no s.rich_lines_start_idxs s.curr_idx).2
  stylizeLine s line_idx ctx.cursorStyle
    (s.gutter_col_width + idx + 1) (s.gutter_col_width + idx + 2)

/-- Resolve a Python slice bound against a list length (negative bounds count
from the end; out-of-range bounds clamp). -/
def pyResolveIndex (len : Nat) (i : Int) : Nat :=
  if i < 0 then ((len : Int) + i).toNat else min len i.toNat

/-- Python `l[a:b]`. -/
def pySlice {α : Type} (l : List α) (a b : Int) : List α :=
  (l.take (pyResolveIndex l.length b)).drop (pyResolveIndex l.length a)

/-- The visible window bounds `(sl, el)` used by `rich_text`: with more rows
than the viewport height, five visual lines of context above the cursor's
visual line (clamped at the top), else the whole document. -/
def winBounds (s : EngineState) : Nat × Int :=
  if s.orig_rich_plain.length > s.height then
    ((get_rich_line_no s.rich_lines_start_idxs s.curr_idx).1 - 5,
     ((get_rich_line_no s.rich_lines_start_idxs s.curr_idx).1 : Int) + (s.height : Int) - 5)
  else (0, (s.orig_rich_plain.length : Int))

/-- The `TypedText.rich_text` property: style the cursor location, then
return the visible window of styled rows (`rich_lines[sl:el]`).  The source
concatenates the rows into one `rich` text; the model returns the windowed
rows as the pair (plain rows slice, styling overlay slice), together with
the (mutated) engine state after the read. -/
def rich_text (ctx : Ctx) (s : EngineState) :
    (List (List Char) × List (List Span)) × EngineState :=
  let s1 := style_cursor_location ctx s
  ((pySlice s1.orig_rich_plain ((winBounds s1).1 : Int) (winBounds s1).2,
    pySlice s1.rich_spans ((winBounds s1).1 : Int) (winBounds s1).2), s1)

/-- The key under which one `type_character` call records a back reference
(`back_idxs[key] = old cursor`), if any: the unclamped whitespace-skip
target for tab, the next visual line start for a completing space (none
when no next line exists, in which case nothing is recorded), the clamped
successor for any other character, and nothing for backspace or for a
cursor outside the text. -/
def stepBackKey (ch : Key) (s : EngineState) : Option Nat :=
  if s.curr_idx < s.text.length then
    match ch with
    | .backspace => none
    | .tab => some (s.curr_idx + countWhile pyIsSpace (s.text.drop s.curr_idx))
    | .char c =>
      let line_idx := (get_rich_line_no s.rich_lines_start_idxs s.curr_idx).1
      let i0 := (get_rich_line_no s.rich_lines_start_idxs s.curr_idx).2
      if c = ' ' && str_isspace ((s.orig_rich_plain.getD line_idx []).drop (i0 + s.gutter_col_width + 1)) then
        s.rich_lines_start_idxs.get? (line_idx + 1)
      else some (min s.text.length (s.curr_idx + 1))
  else none

/-- Predicate `WritesBack ctx s tr o`: some keystroke of the trace `tr`, executed from
the intermediate state it is reached in, records a back reference under
key `o`. -/
inductive WritesBack (ctx : Ctx) : EngineState → List (Key × Nat) → Nat → Prop where
  | here {s : EngineState} {k : Key} {t : Nat} {tr : List (Key × Nat)} {o : Nat} :
      stepBackKey k s = some o → WritesBack ctx s ((k, t) :: tr) o
  | there {s : EngineState} {k : Key} {t : Nat} {tr : List (Key × Nat)} {o : Nat} :
      WritesBack ctx (stepState ctx k t s) tr o → WritesBack ctx s ((k, t) :: tr) o

/-- Validity of a wrap output for a text of length `n`: every visual-line
start offset lies inside the text (as produced by `create_rich_lines`,
whose start offsets are logical line starts plus in-line wrap offsets). -/
def ValidLayout (n : Nat) (L : Layout) : Prop :=
  ∀ x ∈ L.starts, x < n

/-- Reachable engine states: construction followed by the mandatory initial
`update_dimensions` (as in `TypingApp.on_mount`), then any sequence of
keystrokes — whatever their outcome — and resizes. -/
inductive Reachable (ctx : Ctx) (lines : List (List Char)) : EngineState → Prop where
  | boot (L : Layout) (w h : Nat) :
      ValidLayout (TypedText_init lines).text.length L →
      Reachable ctx lines (update_dimensions L w h (TypedText_init lines))
  | step_ok {s s' : EngineState} (ch : Key) (ts : Nat) :
      Reachable ctx lines s → type_character ctx ch ts s = .ok s' →
      Reachable ctx lines s'
  | step_finished {s s' : EngineState} (ch : Key) (ts : Nat) :
      Reachable ctx lines s → type_character ctx ch ts s = .finished s' →
      Reachable ctx lines s'
  | step_keyError {s s' : EngineState} (ch : Key) (ts : Nat) :
      Reachable ctx lines s → type_character ctx ch ts s = .keyError s' →
      Reachable ctx lines s'
  | resize {s : EngineState} (L : Layout) (w h : Nat) :
      Reachable ctx lines s → ValidLayout s.text.length L →
      Reachable ctx lines (update_dimensions L w h s)

/-- The inductive engine invariant behind the amended C7: the text is fixed
of length `n`, the cursor never exceeds `n`, every recorded back-reference
target is `< n`, and every visual-line start offset is `< n`. -/
def EngineInv (n : Nat) (s : EngineState) : Prop :=
  s.text.length = n ∧ s.curr_idx ≤ n ∧
  (∀ p ∈ s.back_idxs, p.2 < n) ∧ (∀ x ∈ s.rich_lines_start_idxs, x < n)

/-- Two styling overlays render identically: same number of rows and the
same set of spans on each row. -/
def spansMemEq (A B : List (List Span)) : Prop :=
  A.length = B.length ∧ ∀ i sp, sp ∈ A.getD i [] ↔ sp ∈ B.getD i []

/-- Two frames render identically: equal plain rows and render-equivalent
styling overlays. -/
def frameEquiv (F G : List (List Char) × List (List Span)) : Prop :=
  F.1 = G.1 ∧ spansMemEq F.2 G.2

/-- A concrete rendering context for the concrete sessions below. -/
def ctx0 : Ctx :=
  ⟨fun _ _ => 0, 10, 11, fun sty => sty + 100⟩

/-- The session of the spec's scenario: logical line "ab", stored text
"ab\n". -/
def lines_ab : List (List Char) := [['a', 'b']]

/-- The wrap output for `lines_ab` on a wide viewport: one visual row,
gutter " 1 " plus the line text plus the appended space and newline. -/
def layout_ab : Layout := ⟨[0], [[' ', '1', ' ', 'a', 'b', ' ', '\n']]⟩

def st_ab0 : EngineState := update_dimensions layout_ab 80 24 (TypedText_init lines_ab)

def st_ab1 : EngineState := stepState ctx0 (Key.char 'a') 1 st_ab0

def st_ab2 : EngineState := stepState ctx0 (Key.char 'b') 2 st_ab1

def st_ab3 : EngineState := stepState ctx0 (Key.char '\n') 3 st_ab2

/-- A session whose logical line "a b" has a space that is not at the start
of the line. -/
def lines_asb : List (List Char) := [['a', ' ', 'b']]

/-- The wrap output for `lines_asb` on a wide viewport. -/
def layout_asb : Layout := ⟨[0], [[' ', '1', ' ', 'a', ' ', 'b', ' ', '\n']]⟩

def st_asb0 : EngineState := update_dimensions layout_asb 80 24 (TypedText_init lines_asb)

def st_asb1 : EngineState := stepState ctx0 (Key.char 'a') 1 st_asb0

/-! Field-preservation lemmas: the styling helpers only touch the
`rich_spans` overlay, and `markStart` only touches `start_ts`. -/

@[simp] theorem stylizeLine_text (s : EngineState) (li sty st en : Nat) :
    (stylizeLine s li sty st en).text = s.text := rfl

@[simp] theorem stylizeLine_curr (s : EngineState) (li sty st en : Nat) :
    (stylizeLine s li sty st en).curr_idx = s.curr_idx := rfl

@[simp] theorem stylizeLine_actions (s : EngineState) (li sty st en : Nat) :
    (stylizeLine s li sty st en).actions = s.actions := rfl

@[simp] theorem stylizeLine_back (s : EngineState) (li sty st en : Nat) :
    (stylizeLine s li sty st en).back_idxs = s.back_idxs := rfl

@[simp] theorem stylizeLine_start_ts (s : EngineState) (li sty st en : Nat) :
    (stylizeLine s li sty st en).start_ts = s.start_ts := rfl

@[simp] theorem stylizeLine_end_ts (s : EngineState) (li sty st en : Nat) :
    (stylizeLine s li sty st en).end_ts = s.end_ts := rfl

@[simp] theorem stylizeLine_starts (s : EngineState) (li sty st en : Nat) :
    (stylizeLine s li sty st en).rich_lines_start_idxs = s.rich_lines_start_idxs := rfl

@[simp] theorem stylizeLine_plain (s : EngineState) (li sty st en : Nat) :
    (stylizeLine s li sty st en).orig_rich_plain = s.orig_rich_plain := rfl

@[simp] theorem stylizeLine_gutter (s : EngineState) (li sty st en : Nat) :
    (stylizeLine s li sty st en).gutter_col_width = s.gutter_col_width := rfl

@[simp] theorem stylizeLine_height (s : EngineState) (li sty st en : Nat) :
    (stylizeLine s li sty st en).height = s.height := rfl

@[simp] theorem stylizeLine_spans_length (s : EngineState) (li sty st en : Nat) :
    (stylizeLine s li sty st en).rich_spans.length = s.rich_spans.length := by
  simp [stylizeLine]

@[simp] theorem style_wrong_text (ctx : Ctx) (idx : Nat) (s : EngineState) :
    (style_wrong_char_at ctx idx s).text = s.text := rfl

@[simp] theorem style_wrong_curr (ctx : Ctx) (idx : Nat) (s : EngineState) :
    (style_wrong_char_at ctx idx s).curr_idx = s.curr_idx := rfl

@[simp] theorem style_wrong_actions (ctx : Ctx) (idx : Nat) (s : EngineState) :
    (style_wrong_char_at ctx idx s).actions = s.actions := rfl

@[simp] theorem style_wrong_back (ctx : Ctx) (idx : Nat) (s : EngineState) :
    (style_wrong_char_at ctx idx s).back_idxs = s.back_idxs := rfl

@[simp] theorem style_wrong_start_ts (ctx : Ctx) (idx : Nat) (s : EngineState) :
    (style_wrong_char_at ctx idx s).start_ts = s.start_ts := rfl

@[simp] theorem style_wrong_end_ts (ctx : Ctx) (idx : Nat) (s : EngineState) :
    (style_wrong_char_at ctx idx s).end_ts = s.end_ts := rfl

@[simp] theorem style_wrong_starts (ctx : Ctx) (idx : Nat) (s : EngineState) :
    (style_wrong_char_at ctx idx s).rich_lines_start_idxs = s.rich_lines_start_idxs := rfl

@[simp] theorem style_wrong_plain (ctx : Ctx) (idx : Nat) (s : EngineState) :
    (style_wrong_char_at ctx idx s).orig_rich_plain = s.orig_rich_plain := rfl

@[simp] theorem style_correct_text (ctx : Ctx) (idx : Nat) (s : EngineState) :
    (style_correct_char_at ctx idx s).text = s.text := by
  unfold style_correct_char_at; split <;> rfl

@[simp] theorem style_correct_curr (ctx : Ctx) (idx : Nat) (s : EngineState) :
    (style_correct_char_at ctx idx s).curr_idx = s.curr_idx := by
  unfold style_correct_char_at; split <;> rfl

@[simp] theorem style_correct_actions (ctx : Ctx) (idx : Nat) (s : EngineState) :
    (style_correct_char_at ctx idx s).actions = s.actions := by
  unfold style_correct_char_at; split <;> rfl

@[simp] theorem style_correct_back (ctx : Ctx) (idx : Nat) (s : EngineState) :
    (style_correct_char_at ctx idx s).back_idxs = s.back_idxs := by
  unfold style_correct_char_at; split <;> rfl

@[simp] theorem style_correct_start_ts (ctx : Ctx) (idx : Nat) (s : EngineState) :
    (style_correct_char_at ctx idx s).start_ts = s.start_ts := by
  unfold style_correct_char_at; split <;> rfl

@[simp] theorem style_correct_end_ts (ctx : Ctx) (idx : Nat) (s : EngineState) :
    (style_correct_char_at ctx idx s).end_ts = s.end_ts := by
  unfold style_correct_char_at; split <;> rfl

@[simp] theorem style_correct_starts (ctx : Ctx) (idx : Nat) (s : EngineState) :
    (style_correct_char_at ctx idx s).rich_lines_start_idxs = s.rich_lines_start_idxs := by
  unfold style_correct_char_at; split <;> rfl

@[simp] theorem style_correct_plain (ctx : Ctx) (idx : Nat) (s : EngineState) :
    (style_correct_char_at ctx idx s).orig_rich_plain = s.orig_rich_plain := by
  unfold style_correct_char_at; split <;> rfl

@[simp] theorem markStart_text (ts : Nat) (s : EngineState) :
    (markStart ts s).text = s.text := by
  unfold markStart; split <;> rfl

@[simp] theorem markStart_curr (ts : Nat) (s : EngineState) :
    (markStart ts s).curr_idx = s.curr_idx := by
  unfold markStart; split <;> rfl

@[simp] theorem markStart_actions (ts : Nat) (s : EngineState) :
    (markStart ts s).actions = s.actions := by
  unfold markStart; split <;> rfl

@[simp] theorem markStart_back (ts : Nat) (s : EngineState) :
    (markStart ts s).back_idxs = s.back_idxs := by
  unfold markStart; split <;> rfl

@[simp] theorem markStart_end_ts (ts : Nat) (s : EngineState) :
    (markStart ts s).end_ts = s.end_ts := by
  unfold markStart; split <;> rfl

@[simp] theorem markStart_starts (ts : Nat) (s : EngineState) :
    (markStart ts s).rich_lines_start_idxs = s.rich_lines_start_idxs := by
  unfold markStart; split <;> rfl

@[simp] theorem markStart_plain (ts : Nat) (s : EngineState) :
    (markStart ts s).orig_rich_plain = s.orig_rich_plain := by
  unfold markStart; split <;> rfl

@[simp] theorem markStart_gutter (ts : Nat) (s : EngineState) :
    (markStart ts s).gutter_col_width = s.gutter_col_width := by
  unfold markStart; split <;> rfl

/-! Small list lemmas used throughout. -/

theorem getD_set_self {α : Type} (l : List α) (i : Nat) (v d : α) (h : i < l.length) :
    (l.set i v).getD i d = v := by
  induction l generalizing i with
  | nil => simp at h
  | cons x xs ih =>
    cases i with
    | zero => rfl
    | succ i => exact ih i (by simpa using h)

theorem appendAction_getD_self (acts : List (List Action)) (idx : Nat) (a : Action)
    (h : idx < acts.length) :
    (appendAction acts idx a).getD idx [] = acts.getD idx [] ++ [a] :=
  getD_set_self acts idx _ [] h

/-- The call `style_for_backspace_at` succeeds exactly when the back reference it
needs exists, and it only mutates the styling overlay. -/
theorem style_for_backspace_at_ok (ctx : Ctx) (idx : Nat) (s : EngineState)
    (h : idx = 0 ∨ (dictGet? s.back_idxs idx).isSome = true) :
    ∃ s1, style_for_backspace_at ctx idx s = .ok s1 ∧
      s1.curr_idx = s.curr_idx ∧ s1.actions = s.actions ∧
      s1.back_idxs = s.back_idxs ∧ s1.text = s.text ∧
      s1.start_ts = s.start_ts ∧ s1.end_ts = s.end_ts := by
  unfold style_for_backspace_at
  dsimp only
  by_cases h0 : idx = 0
  · rw [if_pos h0]
    exact ⟨_, rfl, rfl, rfl, rfl, rfl, rfl, rfl⟩
  · rw [if_neg h0]
    rcases h with h | h
    · exact absurd h h0
    · obtain ⟨p, hp⟩ := Option.isSome_iff_exists.mp h
      rw [show (stylizeLine s (get_rich_line_no s.rich_lines_start_idxs idx).1
          (ctx.getStyleAt (get_rich_line_no s.rich_lines_start_idxs idx).1
            (s.gutter_col_width + (get_rich_line_no s.rich_lines_start_idxs idx).2 + 1))
          (s.gutter_col_width + (get_rich_line_no s.rich_lines_start_idxs idx).2 + 1)
          (s.gutter_col_width + (get_rich_line_no s.rich_lines_start_idxs idx).2 + 2)).back_idxs
          = s.back_idxs from rfl, hp]
      exact ⟨_, rfl, rfl, rfl, rfl, rfl, rfl, rfl⟩

/-! Lemmas about right bisection on sorted lists. -/

theorem bisect_right_le_length (xs : List Nat) (x : Nat) :
    bisect_right xs x ≤ xs.length := by
  induction xs with
  | nil => simp [bisect_right]
  | cons y ys ih =>
    simp only [bisect_right, List.length_cons]
    split
    · omega
    · omega

theorem chain_le_getD_head (ys : List Nat) :
    ∀ y, List.Chain' (· ≤ ·) (y :: ys) → ∀ i, i < ys.length → y ≤ ys.getD i 0 := by
  induction ys with
  | nil => intro y _ i hi; simp at hi
  | cons z zs ih =>
    intro y h i hi
    have hyz : y ≤ z := (List.chain'_cons.mp h).1
    have hz : List.Chain' (· ≤ ·) (z :: zs) := (List.chain'_cons.mp h).2
    cases i with
    | zero => simpa using hyz
    | succ i =>
      simp only [List.getD_cons_succ]
      exact le_trans hyz (ih z hz i (by simpa using hi))

theorem bisect_right_lower (xs : List Nat) (x : Nat) :
    List.Chain' (· ≤ ·) xs → ∀ i, i < bisect_right xs x → xs.getD i 0 ≤ x := by
  induction xs with
  | nil => intro _ i hi; simp [bisect_right] at hi
  | cons y ys ih =>
    intro h i hi
    simp only [bisect_right] at hi
    split at hi
    · omega
    · rename_i hxy
      cases i with
      | zero => simpa using Nat.le_of_not_lt hxy
      | succ i =>
        simp only [List.getD_cons_succ]
        exact ih (List.Chain'.tail h) i (by omega)

theorem bisect_right_upper (xs : List Nat) (x : Nat) :
    List.Chain' (· ≤ ·) xs →
    ∀ i, bisect_right xs x ≤ i → i < xs.length → x < xs.getD i 0 := by
  induction xs with
  | nil => intro _ i _ hi; simp at hi
  | cons y ys ih =>
    intro h i hbi hi
    simp only [bisect_right] at hbi
    split at hbi
    · rename_i hxy
      cases i with
      | zero => simpa using hxy
      | succ i =>
        simp only [List.getD_cons_succ]
        exact lt_of_lt_of_le hxy (chain_le_getD_head ys y h i (by simpa using hi))
    · cases i with
      | zero => omega
      | succ i =>
        simp only [List.getD_cons_succ]
        exact ih (List.Chain'.tail h) i (by omega) (by simpa using hi)

theorem chain_le_getD_mono (xs : List Nat) :
    List.Chain' (· ≤ ·) xs →
    ∀ i j, i ≤ j → j < xs.length → xs.getD i 0 ≤ xs.getD j 0 := by
  induction xs with
  | nil => intro _ i j _ hj; simp at hj
  | cons y ys ih =>
    intro h i j hij hj
    cases i with
    | zero =>
      cases j with
      | zero => simp
      | succ j =>
        simp only [List.getD_cons_zero, List.getD_cons_succ]
        exact chain_le_getD_head ys y h j (by simpa using hj)
    | succ i =>
      cases j with
      | zero => omega
      | succ j =>
        simp only [List.getD_cons_succ]
        exact ih (List.Chain'.tail h) i j (by omega) (by simpa using hj)

/-- C1: for every logical offset `o`, `get_rich_line_no` on the sorted
start-offset list (whose first entry is `0`) returns a pair
(visual line index, column) such that the line index is in range, the
chosen line's start offset is the greatest start offset `≤ o`, and
start + column reconstructs `o`. -/
theorem c1_map_reconstruct (starts : List Nat) (o : Nat)
    (hs : List.Chain' (· ≤ ·) starts) (h0 : starts.head? = some 0) :
    (get_rich_line_no starts o).1 < starts.length ∧
    starts.getD (get_rich_line_no starts o).1 0 ≤ o ∧
    starts.getD (get_rich_line_no starts o).1 0 + (get_rich_line_no starts o).2 = o ∧
    ∀ j, j < starts.length → starts.getD j 0 ≤ o →
      starts.getD j 0 ≤ starts.getD (get_rich_line_no starts o).1 0 := by
  obtain ⟨y, ys, rfl⟩ : ∃ y ys, starts = y :: ys := by
    cases starts with
    | nil => simp at h0
    | cons y ys => exact ⟨y, ys, rfl⟩
  have hy : y = 0 := by simpa using h0
  have hpos : 1 ≤ bisect_right (y :: ys) o := by
    simp [bisect_right, hy]
  have hlen : bisect_right (y :: ys) o ≤ (y :: ys).length :=
    bisect_right_le_length _ _
  have hklt : bisect_right (y :: ys) o - 1 < (y :: ys).length := by
    simp only [List.length_cons] at hlen ⊢
    omega
  have hle : (y :: ys).getD (bisect_right (y :: ys) o - 1) 0 ≤ o :=
    bisect_right_lower _ o hs _ (by omega)
  have hfst : (get_rich_line_no (y :: ys) o).1 = bisect_right (y :: ys) o - 1 := rfl
  have hsnd : (get_rich_line_no (y :: ys) o).2 =
      o - (y :: ys).getD (bisect_right (y :: ys) o - 1) 0 := rfl
  refine ⟨by rw [hfst]; exact hklt, by rw [hfst]; exact hle, ?_, ?_⟩
  · rw [hfst, hsnd]
    omega
  · intro j hj hjo
    rw [hfst]
    by_cases hjk : j < bisect_right (y :: ys) o
    · exact chain_le_getD_mono _ hs j (bisect_right (y :: ys) o - 1) (by omega) hklt
    · exact absurd hjo (not_le.mpr (bisect_right_upper _ o hs j (by omega) hj))

/-- Witness for C1 on the concrete sorted start list `[0, 4, 9]` at offset
`6`: the mapper picks visual line 1 (start 4) and column 2. -/
theorem c1_witness :
    (get_rich_line_no [0, 4, 9] 6).1 < ([0, 4, 9] : List Nat).length ∧
    ([0, 4, 9] : List Nat).getD (get_rich_line_no [0, 4, 9] 6).1 0 ≤ 6 ∧
    ([0, 4, 9] : List Nat).getD (get_rich_line_no [0, 4, 9] 6).1 0 +
      (get_rich_line_no [0, 4, 9] 6).2 = 6 ∧
    ∀ j, j < ([0, 4, 9] : List Nat).length → ([0, 4, 9] : List Nat).getD j 0 ≤ 6 →
      ([0, 4, 9] : List Nat).getD j 0 ≤
        ([0, 4, 9] : List Nat).getD (get_rich_line_no [0, 4, 9] 6).1 0 :=
  c1_map_reconstruct [0, 4, 9] 6
    (by norm_num [List.chain'_cons, List.chain'_singleton]) (by decide)

/-- C10: a viewport resize (`update_dimensions`) resets the cursor, action
log and back references and installs the new layout, but leaves `start_ts`
and `end_ts` untouched, so `elapsed_seconds` is unchanged across the
rebuild. -/
theorem c10_resize_clock (L : Layout) (w h : Nat) (s : EngineState) (now : Nat) :
    (update_dimensions L w h s).start_ts = s.start_ts ∧
    (update_dimensions L w h s).end_ts = s.end_ts ∧
    elapsed_seconds now (update_dimensions L w h s) = elapsed_seconds now s ∧
    (update_dimensions L w h s).curr_idx = 0 ∧
    (update_dimensions L w h s).back_idxs = [] ∧
    (update_dimensions L w h s).actions = List.replicate s.text.length [] :=
  ⟨rfl, rfl, rfl, rfl, rfl, rfl⟩

/-- Counterexample to C2: in the session over the logical line "a b"
(stored text "a b\n"), after correctly typing 'a' the cursor is at offset
1, whose character is the mid-line space (so tab is invalid because
text[0] = 'a' is not a newline).  Pressing tab records WRONG at offset 1 as
claimed, but the cursor then advances to offset 2 instead of staying at 1:
the whitespace-skip cursor update runs in the invalid branch too. -/
theorem c2_counterexample :
    st_asb1.curr_idx = 1 ∧
    type_character ctx0 Key.tab 2 st_asb1 = .ok (stepState ctx0 Key.tab 2 st_asb1) ∧
    lastStatusIs ((stepState ctx0 Key.tab 2 st_asb1).actions.getD 1 []) STATUS_WRONG = true ∧
    (stepState ctx0 Key.tab 2 st_asb1).curr_idx = 2 :=
  ⟨by decide, by decide, by decide, by decide⟩

/-- Counterexample to C3: in the "ab" session with both characters typed
correctly (cursor at offset 2, the trailing newline, on the last visual
line), pressing space takes the line-completion branch, finds no next
visual line, and signals completion by raising — but `end_ts` is left
unset (`none`), not set to the action's timestamp 3: the raise happens
before the `check_finished` block that fixes the end timestamp. -/
theorem c3_counterexample :
    isFinished (type_character ctx0 (Key.char ' ') 3 st_ab2) = true ∧
    (stepState ctx0 (Key.char ' ') 3 st_ab2).end_ts = none ∧
    (stepState ctx0 (Key.char ' ') 3 st_ab2).start_ts = some 1 :=
  ⟨by decide, by decide, by decide⟩

/-- Counterexample to C6: in the "ab" session (stored text "ab\n", n = 3),
typing 'a' then 'b' records both as CORRECT, yet the session is NOT
finished after the second keystroke: the cursor is at offset 2 and
`check_finished` compares it with n = 3 (the stored text includes the
trailing newline, which still has to be typed). -/
theorem c6_counterexample :
    lastStatusIs (st_ab2.actions.getD 0 []) STATUS_CORRECT = true ∧
    lastStatusIs (st_ab2.actions.getD 1 []) STATUS_CORRECT = true ∧
    isFinished (type_character ctx0 (Key.char 'b') 2 st_ab1) = false ∧
    check_finished st_ab2 = false ∧
    st_ab2.curr_idx = 2 ∧ st_ab2.text.length = 3 :=
  ⟨by decide, by decide, by decide, by decide, by decide, by decide⟩

/-- Counterexample to C8: from the freshly laid-out "ab" session (cursor
0), one invalid tab (text[0] = 'a' is not a space) records
`back_idxs[0] = 0` while the cursor stays at 0 for the whole one-step
history — so `BackReference[0]` is defined although the cursor never moved
forward to 0 from an offset different from 0. -/
theorem c8_counterexample :
    st_ab0.curr_idx = 0 ∧
    (stepState ctx0 Key.tab 1 st_ab0).curr_idx = 0 ∧
    dictGet? (stepState ctx0 Key.tab 1 st_ab0).back_idxs 0 = some 0 :=
  ⟨by decide, by decide, by decide⟩

/-- Counterexample to C9: reading the `rich_text` property is not a pure
read: on the fresh "ab" session it mutates the styled line buffers by
appending the cursor-style span to the cursor's visual line. -/
theorem c9_counterexample :
    (rich_text ctx0 st_ab0).2.rich_spans ≠ st_ab0.rich_spans := by
  decide

theorem check_finished_iff (s : EngineState) :
    check_finished s = true ↔ s.text.length ≤ s.curr_idx := by
  simp [check_finished, ge_iff_le]

/-- C4: a backspace keystroke at cursor offset `o` (in range, with
`BackReference[o]` defined when `o > 0`) appends a BACKSPACE action at `o`
and moves the cursor to `0` if `o = 0`, else to `BackReference[o]`. -/
theorem c4_backspace (ctx : Ctx) (ts : Nat) (s : EngineState)
    (hcur : s.curr_idx < s.text.length)
    (hact : s.curr_idx < s.actions.length)
    (hback : s.curr_idx = 0 ∨ (dictGet? s.back_idxs s.curr_idx).isSome = true) :
    ∃ s', type_character ctx Key.backspace ts s = .ok s' ∧
      s'.actions.getD s.curr_idx [] =
        s.actions.getD s.curr_idx [] ++ [⟨Key.backspace, STATUS_BACKSPACE, ts⟩] ∧
      (s.curr_idx = 0 → s'.curr_idx = 0) ∧
      (∀ v, s.curr_idx ≠ 0 → dictGet? s.back_idxs s.curr_idx = some v → s'.curr_idx = v) := by
  unfold type_character
  rw [if_neg (not_not_intro hcur)]
  dsimp only
  obtain ⟨s1, hsfb, hc, ha, hb, ht, hst, het⟩ :=
    style_for_backspace_at_ok ctx s.curr_idx
      { markStart ts s with
        actions := appendAction (markStart ts s).actions s.curr_idx
          ⟨Key.backspace, STATUS_BACKSPACE, ts⟩ }
      (by simp only [markStart_back]; exact hback)
  rw [hsfb]
  refine ⟨_, rfl, ?_, ?_, ?_⟩
  · show s1.actions.getD s.curr_idx [] = _
    rw [ha]
    show (appendAction (markStart ts s).actions s.curr_idx _).getD s.curr_idx [] = _
    rw [markStart_actions,
      appendAction_getD_self s.actions s.curr_idx _ hact]
  · intro h0
    show (if s.curr_idx = 0 then 0 else (dictGet? s1.back_idxs s.curr_idx).getD 0) = 0
    rw [if_pos h0]
  · intro v hne hv
    show (if s.curr_idx = 0 then 0 else (dictGet? s1.back_idxs s.curr_idx).getD 0) = v
    rw [if_neg hne, hb]
    show (dictGet? (markStart ts s).back_idxs s.curr_idx).getD 0 = v
    rw [markStart_back, hv]
    rfl

/-- Witness for C4: in the "a b" session after typing 'a', the cursor is at
offset 1 with `BackReference[1] = 0`; backspace appends a BACKSPACE action
at offset 1 and moves the cursor back to 0. -/
theorem c4_witness :
    ∃ s', type_character ctx0 Key.backspace 2 st_asb1 = .ok s' ∧
      s'.actions.getD st_asb1.curr_idx [] =
        st_asb1.actions.getD st_asb1.curr_idx [] ++ [⟨Key.backspace, STATUS_BACKSPACE, 2⟩] ∧
      (st_asb1.curr_idx = 0 → s'.curr_idx = 0) ∧
      (∀ v, st_asb1.curr_idx ≠ 0 → dictGet? st_asb1.back_idxs st_asb1.curr_idx = some v →
        s'.curr_idx = v) :=
  c4_backspace ctx0 2 st_asb1 (by decide) (by decide) (Or.inr (by decide))

/-- C2 (amended): an invalid tab (text[o] not a space, or o > 0 and
text[o−1] not a newline) appends a WRONG action at `o`, and the cursor is
then set to `min(n − 1, o + w)` where `w` is the length of the contiguous
whitespace run starting at `o` — so the cursor is unchanged exactly when
`text[o]` is not whitespace, and moves forward when `text[o]` is a mid-line
space or other whitespace. -/
theorem c2_tab_invalid (ctx : Ctx) (ts : Nat) (s : EngineState)
    (hcur : s.curr_idx < s.text.length)
    (hact : s.curr_idx < s.actions.length)
    (hinv : s.text.getD s.curr_idx ' ' ≠ ' ' ∨
      (s.curr_idx ≠ 0 ∧ s.text.getD (s.curr_idx - 1) ' ' ≠ '\n')) :
    ∃ s', type_character ctx Key.tab ts s = .ok s' ∧
      s'.actions.getD s.curr_idx [] =
        s.actions.getD s.curr_idx [] ++ [⟨Key.tab, STATUS_WRONG, ts⟩] ∧
      s'.curr_idx = min (s.text.length - 1)
        (s.curr_idx + countWhile pyIsSpace (s.text.drop s.curr_idx)) := by
  have hcond : (s.text.getD s.curr_idx ' ' != ' ' ||
      (s.curr_idx != 0 && s.text.getD (s.curr_idx - 1) ' ' != '\n')) = true := by
    simp only [Bool.or_eq_true, Bool.and_eq_true, bne_iff_ne, ne_eq]
    rcases hinv with h | ⟨h1, h2⟩
    · exact Or.inl h
    · exact Or.inr ⟨h1, h2⟩
  unfold type_character
  rw [if_neg (not_not_intro hcur)]
  dsimp only
  simp only [markStart_text, markStart_actions, markStart_curr, markStart_back]
  rw [if_pos hcond]
  simp only [style_wrong_text, style_wrong_actions, style_wrong_back, style_wrong_curr]
  split
  · rename_i hfin
    rw [check_finished_iff] at hfin
    dsimp only at hfin
    exfalso
    omega
  · refine ⟨_, rfl, ?_, rfl⟩
    show (appendAction s.actions s.curr_idx _).getD s.curr_idx [] = _
    rw [appendAction_getD_self s.actions s.curr_idx _ hact]

/-- Witness for C2 (amended): in the "a b" session after 'a', the invalid
tab at offset 1 (a mid-line space) records WRONG and moves the cursor to
`min(3, 1 + 1) = 2`. -/
theorem c2_witness :
    ∃ s', type_character ctx0 Key.tab 2 st_asb1 = .ok s' ∧
      s'.actions.getD st_asb1.curr_idx [] =
        st_asb1.actions.getD st_asb1.curr_idx [] ++ [⟨Key.tab, STATUS_WRONG, 2⟩] ∧
      s'.curr_idx = min (st_asb1.text.length - 1)
        (st_asb1.curr_idx + countWhile pyIsSpace (st_asb1.text.drop st_asb1.curr_idx)) :=
  c2_tab_invalid ctx0 2 st_asb1 (by decide) (by decide) (Or.inr (by decide))

/-- C3 (amended): whenever `type_character` signals completion, then either
the cursor reached the end of the text and the end timestamp is set to the
current action's timestamp (the `check_finished` path), or the completion
came from the space-as-line-completion transition with no next visual line,
in which case the cursor (still inside the text) and the end timestamp are
both left unchanged. -/
theorem c3_finish_timestamp (ctx : Ctx) (ch : Key) (ts : Nat) (s s' : EngineState)
    (h : type_character ctx ch ts s = .finished s') :
    (s'.text.length ≤ s'.curr_idx ∧ s'.end_ts = some ts) ∨
    (s'.curr_idx = s.curr_idx ∧ s'.curr_idx < s'.text.length ∧ s'.end_ts = s.end_ts) := by
  unfold type_character at h
  by_cases hcur : s.curr_idx < s.text.length
  · rw [if_neg (not_not_intro hcur)] at h
    cases ch with
    | backspace =>
      dsimp only at h
      repeat' split at h
      all_goals cases h
    | tab =>
      dsimp only at h
      repeat' split at h
      all_goals
        first
        | (rename_i hfin
           injection h with h2
           subst h2
           exact Or.inl ⟨(check_finished_iff _).mp hfin, rfl⟩)
        | cases h
    | char c =>
      dsimp only at h
      repeat' split at h
      all_goals
        first
        | (rename_i hfin
           injection h with h2
           subst h2
           exact Or.inl ⟨(check_finished_iff _).mp hfin, rfl⟩)
        | (injection h with h2
           subst h2
           exact Or.inr ⟨by simp, by simpa using hcur, by simp⟩)
        | cases h
  · rw [if_pos hcur] at h
    cases h

/-- Witness for C3 (amended): the keystroke '\n' that finishes the "ab"
session satisfies the dichotomy (here through the first disjunct: cursor at
n and the end timestamp fixed to the action's timestamp 3). -/
theorem c3_witness :
    (st_ab3.text.length ≤ st_ab3.curr_idx ∧ st_ab3.end_ts = some 3) ∨
    (st_ab3.curr_idx = st_ab2.curr_idx ∧ st_ab3.curr_idx < st_ab3.text.length ∧
      st_ab3.end_ts = st_ab2.end_ts) :=
  c3_finish_timestamp ctx0 (Key.char '\n') 3 st_ab2 st_ab3 (by decide)

/-! Counting lemmas for the statistics. -/

theorem filter_length_eq_range_countP (l : List (List Action)) (p : List Action → Bool) :
    (l.filter p).length = (List.range l.length).countP (fun i => p (l.getD i [])) := by
  induction l with
  | nil => simp
  | cons x xs ih =>
    rw [List.length_cons, List.range_succ_eq_map, List.filter_cons, List.countP_cons,
      List.countP_map]
    simp only [Function.comp_def, List.getD_cons_succ, List.getD_cons_zero]
    by_cases hpx : p x = true
    · rw [if_pos hpx, if_pos hpx, List.length_cons, ih]
    · rw [if_neg hpx, if_neg hpx, ih, Nat.add_zero]

theorem sum_map_length_eq_flatten (l : List (List Action)) :
    (l.map List.length).sum = l.flatten.length := by
  induction l with
  | nil => rfl
  | cons x xs ih =>
    rw [List.map_cons, List.sum_cons, List.flatten_cons, List.length_append, ih]

theorem sum_filter_length_eq_flatten_filter (l : List (List Action)) (p : Action → Bool) :
    (l.map (fun x => (x.filter p).length)).sum = (l.flatten.filter p).length := by
  induction l with
  | nil => rfl
  | cons x xs ih =>
    rw [List.map_cons, List.sum_cons, List.flatten_cons, List.filter_append,
      List.length_append, ih]

/-- C5: `compute_accuracy` equals the number of logical offsets whose last
recorded action has status CORRECT, divided by the total number of recorded
actions minus the number of BACKSPACE actions, and equals 0 when that
denominator is 0. -/
theorem c5_accuracy (s : EngineState) (hlen : s.actions.length = s.text.length) :
    compute_accuracy s =
      if ((s.actions.flatten.length : ℤ) -
          ((s.actions.flatten.filter (fun a => a.status == STATUS_BACKSPACE)).length : ℤ)) = 0
      then 0
      else ((List.range s.text.length).countP
          (fun o => lastStatusIs (s.actions.getD o []) STATUS_CORRECT) : ℚ) /
        ((((s.actions.flatten.length : ℤ) -
          ((s.actions.flatten.filter (fun a => a.status == STATUS_BACKSPACE)).length : ℤ)) : ℤ) : ℚ) := by
  have h1 : n_actions s = s.actions.flatten.length := sum_map_length_eq_flatten s.actions
  have h2 : n_backspace_actions s =
      (s.actions.flatten.filter (fun a => a.status == STATUS_BACKSPACE)).length :=
    sum_filter_length_eq_flatten_filter s.actions _
  have h3 : n_correct_characters s = (List.range s.text.length).countP
      (fun o => lastStatusIs (s.actions.getD o []) STATUS_CORRECT) := by
    unfold n_correct_characters n_characters_with_status
    rw [← hlen]
    exact filter_length_eq_range_countP s.actions _
  unfold compute_accuracy
  rw [h1, h2, h3]

/-- Witness for C5 on the concrete "ab" session after typing 'a' and 'b':
two offsets end in CORRECT, two non-backspace actions, so the accuracy is
2/2 = 1 by the claim's formula. -/
theorem c5_witness :
    compute_accuracy st_ab2 =
      if ((st_ab2.actions.flatten.length : ℤ) -
          ((st_ab2.actions.flatten.filter (fun a => a.status == STATUS_BACKSPACE)).length : ℤ)) = 0
      then 0
      else ((List.range st_ab2.text.length).countP
          (fun o => lastStatusIs (st_ab2.actions.getD o []) STATUS_CORRECT) : ℚ) /
        ((((st_ab2.actions.flatten.length : ℤ) -
          ((st_ab2.actions.flatten.filter (fun a => a.status == STATUS_BACKSPACE)).length : ℤ)) : ℤ) : ℚ) :=
  c5_accuracy st_ab2 (by decide)

/-- C6 (amended): in the "ab" session (stored text "ab\n"), typing 'a' then
'b' records both as CORRECT and yields accuracy 1.0 and zero WRONG
characters, but the session is not yet finished after the second keystroke;
it finishes on the next keystroke typing the trailing newline, which sets
the end timestamp to that keystroke's timestamp. -/
theorem c6_scenario :
    lastStatusIs (st_ab2.actions.getD 0 []) STATUS_CORRECT = true ∧
    lastStatusIs (st_ab2.actions.getD 1 []) STATUS_CORRECT = true ∧
    compute_accuracy st_ab2 = 1 ∧
    n_wrong_characters st_ab2 = 0 ∧
    check_finished st_ab2 = false ∧
    isFinished (type_character ctx0 (Key.char '\n') 3 st_ab2) = true ∧
    st_ab3.end_ts = some 3 := by
  refine ⟨by decide, by decide, ?_, by decide, by decide, by decide, by decide⟩
  have h1 : n_actions st_ab2 = 2 := by decide
  have h2 : n_backspace_actions st_ab2 = 0 := by decide
  have h3 : n_correct_characters st_ab2 = 2 := by decide
  unfold compute_accuracy
  rw [h1, h2, h3]
  norm_num

/-! Dictionary lemmas. -/

theorem dictGet?_some_mem (d : List (Nat × Nat)) (k v : Nat)
    (h : dictGet? d k = some v) : (k, v) ∈ d := by
  unfold dictGet? at h
  cases hf : d.find? (fun p => p.1 == k) with
  | none => rw [hf] at h; simp at h
  | some p =>
    rw [hf] at h
    have hp := List.find?_some hf
    have hmem := List.mem_of_find?_eq_some hf
    have h2 : p.2 = v := by simpa using h
    have h1 : p.1 = k := by simpa using hp
    have hkv : (k, v) = p := by rw [← h1, ← h2]
    rw [hkv]
    exact hmem

theorem mem_dictSet (d : List (Nat × Nat)) (k v : Nat) (p : Nat × Nat)
    (h : p ∈ dictSet d k v) : p = (k, v) ∨ p ∈ d := by
  unfold dictSet at h
  rcases List.mem_cons.mp h with h | h
  · exact Or.inl h
  · exact Or.inr ((List.eraseP_sublist d).subset h)

/-- Both outcomes of `style_for_backspace_at` only mutate the styling
overlay. -/
theorem style_for_backspace_at_cases (ctx : Ctx) (idx : Nat) (s : EngineState) :
    ∃ s1, (style_for_backspace_at ctx idx s = .ok s1 ∨
        style_for_backspace_at ctx idx s = .error s1) ∧
      s1.curr_idx = s.curr_idx ∧ s1.actions = s.actions ∧
      s1.back_idxs = s.back_idxs ∧ s1.text = s.text ∧
      s1.start_ts = s.start_ts ∧ s1.end_ts = s.end_ts ∧
      s1.rich_lines_start_idxs = s.rich_lines_start_idxs ∧
      s1.orig_rich_plain = s.orig_rich_plain := by
  unfold style_for_backspace_at
  dsimp only
  by_cases h0 : idx = 0
  · rw [if_pos h0]
    exact ⟨_, Or.inl rfl, rfl, rfl, rfl, rfl, rfl, rfl, rfl, rfl⟩
  · rw [if_neg h0]
    cases hdg : dictGet? s.back_idxs idx with
    | none =>
      rw [show (stylizeLine s (get_rich_line_no s.rich_lines_start_idxs idx).1
          (ctx.getStyleAt (get_rich_line_no s.rich_lines_start_idxs idx).1
            (s.gutter_col_width + (get_rich_line_no s.rich_lines_start_idxs idx).2 + 1))
          (s.gutter_col_width + (get_rich_line_no s.rich_lines_start_idxs idx).2 + 1)
          (s.gutter_col_width + (get_rich_line_no s.rich_lines_start_idxs idx).2 + 2)).back_idxs
          = s.back_idxs from rfl, hdg]
      exact ⟨_, Or.inr rfl, rfl, rfl, rfl, rfl, rfl, rfl, rfl, rfl⟩
    | some p =>
      rw [show (stylizeLine s (get_rich_line_no s.rich_lines_start_idxs idx).1
          (ctx.getStyleAt (get_rich_line_no s.rich_lines_start_idxs idx).1
            (s.gutter_col_width + (get_rich_line_no s.rich_lines_start_idxs idx).2 + 1))
          (s.gutter_col_width + (get_rich_line_no s.rich_lines_start_idxs idx).2 + 1)
          (s.gutter_col_width + (get_rich_line_no s.rich_lines_start_idxs idx).2 + 2)).back_idxs
          = s.back_idxs from rfl, hdg]
      exact ⟨_, Or.inl rfl, rfl, rfl, rfl, rfl, rfl, rfl, rfl, rfl⟩

/-- One `type_character` call preserves the engine invariant, whatever the
outcome. -/
theorem engineInv_step (ctx : Ctx) (ch : Key) (ts : Nat) (n : Nat) (s : EngineState)
    (hInv : EngineInv n s) :
    EngineInv n (resultState s (type_character ctx ch ts s)) := by
  obtain ⟨hText, hCur, hBack, hStarts⟩ := hInv
  by_cases hcur : s.curr_idx < s.text.length
  case neg =>
    unfold type_character
    rw [if_pos hcur]
    exact ⟨hText, hCur, hBack, hStarts⟩
  case pos =>
    unfold type_character
    rw [if_neg (not_not_intro hcur)]
    cases ch with
    | backspace =>
      dsimp only
      obtain ⟨s1, heq, hc, ha, hb, ht, _, _, hst, hpl⟩ :=
        style_for_backspace_at_cases ctx s.curr_idx
          { markStart ts s with
            actions := appendAction (markStart ts s).actions s.curr_idx
              ⟨Key.backspace, STATUS_BACKSPACE, ts⟩ }
      rcases heq with heq | heq <;> rw [heq]
      · refine ⟨?_, ?_, ?_, ?_⟩
        · show s1.text.length = n
          rw [ht]; simpa using hText
        · show (if s.curr_idx = 0 then 0 else (dictGet? s1.back_idxs s.curr_idx).getD 0) ≤ n
          split
          · omega
          · rw [hb]
            show (dictGet? (markStart ts s).back_idxs s.curr_idx).getD 0 ≤ n
            rw [markStart_back]
            cases hdg : dictGet? s.back_idxs s.curr_idx with
            | none => simp
            | some v =>
              have := hBack _ (dictGet?_some_mem _ _ _ hdg)
              simpa using Nat.le_of_lt this
        · show ∀ p ∈ s1.back_idxs, p.2 < n
          rw [hb]
          show ∀ p ∈ (markStart ts s).back_idxs, p.2 < n
          rw [markStart_back]
          exact hBack
        · show ∀ x ∈ s1.rich_lines_start_idxs, x < n
          rw [hst]
          show ∀ x ∈ (markStart ts s).rich_lines_start_idxs, x < n
          rw [markStart_starts]
          exact hStarts
      · refine ⟨?_, ?_, ?_, ?_⟩
        · show s1.text.length = n
          rw [ht]; simpa using hText
        · show s1.curr_idx ≤ n
          rw [hc]; simpa using hCur
        · show ∀ p ∈ s1.back_idxs, p.2 < n
          rw [hb]
          show ∀ p ∈ (markStart ts s).back_idxs, p.2 < n
          rw [markStart_back]
          exact hBack
        · show ∀ x ∈ s1.rich_lines_start_idxs, x < n
          rw [hst]
          show ∀ x ∈ (markStart ts s).rich_lines_start_idxs, x < n
          rw [markStart_starts]
          exact hStarts
    | tab =>
      dsimp only
      split <;> split <;>
      · refine ⟨?_, ?_, ?_, ?_⟩
        · simp [resultState, hText]
        · simp only [resultState]
          show min _ _ ≤ n
          simp only [style_wrong_text, style_correct_text, markStart_text]
          omega
        · simp only [resultState]
          intro p hp
          simp only [style_wrong_back, style_correct_back, markStart_back] at hp
          rcases mem_dictSet _ _ _ _ hp with hp | hp
          · rw [hp]; simpa using lt_of_lt_of_le hcur (le_of_eq hText)
          · exact hBack p hp
        · simp only [resultState]
          simp only [style_wrong_starts, style_correct_starts, markStart_starts]
          exact hStarts
    | char c =>
      dsimp only
      split
      · -- space-as-line-completion branch
        split
        · -- no next visual line: .finished with the state as mutated so far
          refine ⟨?_, ?_, ?_, ?_⟩
          · simp [resultState, hText]
          · simp only [resultState]
            simpa using hCur
          · simp only [resultState]
            intro p hp
            simp only [style_correct_back, markStart_back] at hp
            exact hBack p hp
          · simp only [resultState]
            simp only [style_correct_starts, markStart_starts]
            exact hStarts
        · -- next visual line exists
          rename_i nxt heq
          have hnxt : nxt < n := by
            simp only [style_correct_starts, markStart_starts] at heq
            exact hStarts nxt (List.get?_mem heq)
          split <;>
          · refine ⟨?_, ?_, ?_, ?_⟩
            · simp [resultState, hText]
            · simp only [resultState]
              exact Nat.le_of_lt hnxt
            · simp only [resultState]
              intro p hp
              simp only [style_correct_back, markStart_back] at hp
              rcases mem_dictSet _ _ _ _ hp with hp | hp
              · rw [hp]; simpa using lt_of_lt_of_le hcur (le_of_eq hText)
              · exact hBack p hp
            · simp only [resultState]
              simp only [style_correct_starts, markStart_starts]
              exact hStarts
      · split <;> split <;>
        · refine ⟨?_, ?_, ?_, ?_⟩
          · simp [resultState, hText]
          · simp only [resultState]
            show min _ _ ≤ n
            simp only [style_wrong_text, style_correct_text, markStart_text]
            omega
          · simp only [resultState]
            intro p hp
            simp only [style_wrong_back, style_correct_back, markStart_back] at hp
            rcases mem_dictSet _ _ _ _ hp with hp | hp
            · rw [hp]; simpa using lt_of_lt_of_le hcur (le_of_eq hText)
            · exact hBack p hp
          · simp only [resultState]
            simp only [style_wrong_starts, style_correct_starts, markStart_starts]
            exact hStarts

/-- A resize with a valid layout (re)establishes the engine invariant. -/
theorem engineInv_update (L : Layout) (w h : Nat) (s : EngineState) (n : Nat)
    (hn : s.text.length = n) (hL : ValidLayout s.text.length L) :
    EngineInv n (update_dimensions L w h s) := by
  refine ⟨hn, Nat.zero_le n, ?_, ?_⟩
  · intro p hp
    simp [update_dimensions] at hp
  · intro x hx
    have : x < s.text.length := hL x hx
    omega

/-- Every reachable state satisfies the engine invariant. -/
theorem engineInv_reachable (ctx : Ctx) (lines : List (List Char)) (s : EngineState)
    (h : Reachable ctx lines s) :
    EngineInv (TypedText_init lines).text.length s := by
  induction h with
  | boot L w hh hL =>
    exact engineInv_update L w hh (TypedText_init lines) _ rfl hL
  | step_ok ch ts hr heq ih =>
    have h2 := engineInv_step ctx ch ts _ _ ih
    rw [heq] at h2
    simpa [resultState] using h2
  | step_finished ch ts hr heq ih =>
    have h2 := engineInv_step ctx ch ts _ _ ih
    rw [heq] at h2
    simpa [resultState] using h2
  | step_keyError ch ts hr heq ih =>
    have h2 := engineInv_step ctx ch ts _ _ ih
    rw [heq] at h2
    simpa [resultState] using h2
  | resize L w hh hr hL ih =>
    exact engineInv_update L w hh _ _ ih.1 hL

/-- C7 (amended): in every reachable state of the session — after
construction plus the initial layout, any keystrokes and any resizes — the
cursor offset satisfies 0 ≤ curr_idx ≤ n.  The upper bound is n, not n − 1:
the keystroke that completes the session leaves curr_idx = n (see the
counterexample), so the claimed interval [0, n) holds for all states except
the completed one. -/
theorem c7_cursor_bound (ctx : Ctx) (lines : List (List Char)) (s : EngineState)
    (h : Reachable ctx lines s) : s.curr_idx ≤ s.text.length := by
  obtain ⟨hT, hC, _, _⟩ := engineInv_reachable ctx lines s h
  omega

/-- Witness for C7 (amended) at the freshly booted "ab" session. -/
theorem c7_witness : st_ab0.curr_idx ≤ st_ab0.text.length :=
  c7_cursor_bound ctx0 lines_ab st_ab0 (Reachable.boot layout_ab 80 24 (by show ∀ x ∈ layout_ab.starts, x < (TypedText_init lines_ab).text.length; decide))

/-- Counterexample to C7 as stated: the state after typing 'a', 'b', '\n'
in the "ab" session is reachable and completed, and its cursor offset
equals n = 3, which is outside [0, n). -/
theorem c7_counterexample :
    Reachable ctx0 lines_ab st_ab3 ∧ ¬(st_ab3.curr_idx < st_ab3.text.length) := by
  constructor
  · have h0 : Reachable ctx0 lines_ab st_ab0 :=
      Reachable.boot layout_ab 80 24
        (by show ∀ x ∈ layout_ab.starts, x < (TypedText_init lines_ab).text.length; decide)
    have h1 : Reachable ctx0 lines_ab st_ab1 :=
      Reachable.step_ok (Key.char 'a') 1 h0 (by decide)
    have h2 : Reachable ctx0 lines_ab st_ab2 :=
      Reachable.step_ok (Key.char 'b') 2 h1 (by decide)
    exact Reachable.step_finished (Key.char '\n') 3 h2 (by decide)
  · decide

/-- Erasing entries that a search predicate rejects does not change whether
the search succeeds. -/
theorem find?_isSome_eraseP (l : List (Nat × Nat)) (pk q : Nat × Nat → Bool)
    (hpq : ∀ a, pk a = true → q a = false) :
    ((l.eraseP pk).find? q).isSome = (l.find? q).isSome := by
  induction l with
  | nil => rfl
  | cons a rest ih =>
    rw [List.eraseP_cons]
    cases hpa : pk a with
    | true =>
      simp only [cond_true]
      rw [List.find?_cons_of_neg _ (by simp [hpq a hpa])]
    | false =>
      simp only [cond_false]
      cases hqa : q a with
      | true =>
        rw [List.find?_cons_of_pos _ (by simp [hqa]), List.find?_cons_of_pos _ (by simp [hqa])]
      | false =>
        rw [List.find?_cons_of_neg _ (by simp [hqa]), List.find?_cons_of_neg _ (by simp [hqa]),
          ih]

/-- The domain of a dict after an assignment. -/
theorem dictGet?_dictSet_isSome (d : List (Nat × Nat)) (k v o : Nat) :
    ((dictGet? (dictSet d k v) o).isSome = true) ↔
      (o = k ∨ (dictGet? d o).isSome = true) := by
  unfold dictGet? dictSet
  by_cases hok : o = k
  · subst hok
    rw [List.find?_cons_of_pos _ (by simp)]
    simp
  · rw [List.find?_cons_of_neg _ (by simp; exact fun h => hok h.symm)]
    have hmap : ∀ (x : Option (Nat × Nat)), (Option.map (fun p => p.2) x).isSome = x.isSome := by
      intro x; cases x <;> rfl
    rw [hmap, hmap, find?_isSome_eraseP]
    · simp [hok]
    · intro a ha
      simp only [beq_iff_eq] at ha
      simp only [beq_eq_false_iff_ne, ne_eq, ha]
      exact fun h => hok h.symm

/-- One keystroke extends the domain of `back_idxs` by exactly
`stepBackKey`. -/
theorem stepState_back_isSome (ctx : Ctx) (ch : Key) (ts : Nat) (s : EngineState) (o : Nat) :
    ((dictGet? (stepState ctx ch ts s).back_idxs o).isSome = true) ↔
      (stepBackKey ch s = some o ∨ (dictGet? s.back_idxs o).isSome = true) := by
  unfold stepState stepBackKey
  by_cases hcur : s.curr_idx < s.text.length
  case neg =>
    rw [if_neg hcur]
    unfold type_character
    rw [if_pos hcur]
    simp [resultState]
  case pos =>
    rw [if_pos hcur]
    unfold type_character
    rw [if_neg (not_not_intro hcur)]
    cases ch with
    | backspace =>
      dsimp only
      obtain ⟨s1, heq, hc, ha, hb, ht, hs1, he1, hst, hpl⟩ :=
        style_for_backspace_at_cases ctx s.curr_idx
          { markStart ts s with
            actions := appendAction (markStart ts s).actions s.curr_idx
              ⟨Key.backspace, STATUS_BACKSPACE, ts⟩ }
      rcases heq with heq | heq <;> rw [heq]
      · simp only [resultState]
        show (dictGet? s1.back_idxs o).isSome = true ↔ _
        rw [hb]
        show (dictGet? (markStart ts s).back_idxs o).isSome = true ↔ _
        rw [markStart_back]
        simp
      · simp only [resultState]
        rw [hb]
        show (dictGet? (markStart ts s).back_idxs o).isSome = true ↔ _
        rw [markStart_back]
        simp
    | tab =>
      dsimp only
      split <;> split <;>
      · simp only [resultState]
        simp only [style_wrong_back, style_correct_back, style_wrong_text, style_correct_text,
          markStart_back, markStart_text]
        rw [dictGet?_dictSet_isSome]
        constructor
        · rintro (h | h)
          · exact Or.inl (by rw [h])
          · exact Or.inr h
        · rintro (h | h)
          · exact Or.inl (Option.some_inj.mp h).symm
          · exact Or.inr h
    | char c =>
      dsimp only
      simp only [markStart_starts, markStart_plain, markStart_gutter, markStart_text,
        markStart_curr, markStart_back, markStart_actions]
      by_cases hsp : (c = ' ' && str_isspace ((s.orig_rich_plain.getD
          (get_rich_line_no s.rich_lines_start_idxs s.curr_idx).1 []).drop
          ((get_rich_line_no s.rich_lines_start_idxs s.curr_idx).2 +
            s.gutter_col_width + 1))) = true
      · rw [if_pos hsp, if_pos hsp]
        simp only [style_correct_starts, markStart_starts]
        cases hget : s.rich_lines_start_idxs.get?
            ((get_rich_line_no s.rich_lines_start_idxs s.curr_idx).1 + 1) with
        | none =>
          dsimp only
          simp only [resultState]
          simp only [style_correct_back, markStart_back]
          simp
        | some nxt =>
          dsimp only
          split <;>
          · simp only [resultState]
            simp only [style_correct_back, markStart_back]
            rw [dictGet?_dictSet_isSome]
            constructor
            · rintro (h | h)
              · exact Or.inl (by rw [h])
              · exact Or.inr h
            · rintro (h | h)
              · exact Or.inl (Option.some_inj.mp h).symm
              · exact Or.inr h
      · rw [if_neg hsp, if_neg hsp]
        split <;> split <;>
        · simp only [resultState]
          simp only [style_wrong_back, style_correct_back, style_wrong_text, style_correct_text,
            markStart_back, markStart_text]
          rw [dictGet?_dictSet_isSome]
          constructor
          · rintro (h | h)
            · exact Or.inl (by rw [h])
            · exact Or.inr h
          · rintro (h | h)
            · exact Or.inl (Option.some_inj.mp h).symm
            · exact Or.inr h

/-- Over a whole trace, `back_idxs[o]` is defined iff it was defined at the
start or some keystroke of the trace recorded it. -/
theorem runEnd_back_isSome (ctx : Ctx) (tr : List (Key × Nat)) (s : EngineState) (o : Nat) :
    ((dictGet? (runEnd ctx s tr).back_idxs o).isSome = true) ↔
      ((dictGet? s.back_idxs o).isSome = true ∨ WritesBack ctx s tr o) := by
  induction tr generalizing s with
  | nil =>
    show (dictGet? s.back_idxs o).isSome = true ↔ _
    constructor
    · exact Or.inl
    · rintro (h | h)
      · exact h
      · cases h
  | cons kt tr ih =>
    obtain ⟨k, t⟩ := kt
    show (dictGet? (runEnd ctx (stepState ctx k t s) tr).back_idxs o).isSome = true ↔ _
    rw [ih (stepState ctx k t s), stepState_back_isSome]
    constructor
    · rintro ((h | h) | h)
      · exact Or.inr (WritesBack.here h)
      · exact Or.inl h
      · exact Or.inr (WritesBack.there h)
    · rintro (h | h)
      · exact Or.inl (Or.inr h)
      · cases h with
        | here hk => exact Or.inl (Or.inl hk)
        | there hw => exact Or.inr hw

/-- C8 (amended): within a layout epoch (`back_idxs` starts empty),
`BackReference[o]` is defined iff some keystroke of the epoch's history
recorded a back reference under key `o` — the recorded key being that
keystroke's destination offset (the unclamped whitespace-skip target for
tab, the next visual line start for a completing space, the clamped
successor for any other character; backspace records nothing).  The claim's
stronger reading "the cursor moved forward to `o` from some offset ≠ `o`"
fails: the source offset may equal `o`, e.g. an invalid tab at a
non-whitespace character records `back_idxs[o] = o` with the cursor never
moving (see the counterexample). -/
theorem c8_back_defined (ctx : Ctx) (tr : List (Key × Nat)) (s : EngineState) (o : Nat)
    (hfresh : s.back_idxs = []) :
    ((dictGet? (runEnd ctx s tr).back_idxs o).isSome = true) ↔ WritesBack ctx s tr o := by
  rw [runEnd_back_isSome, hfresh]
  simp [dictGet?]

/-- Witness for C8 (amended) on the fresh "ab" session and the one-step
history of typing 'a': `back_idxs[1]` is defined iff that step recorded
key 1. -/
theorem c8_witness :
    ((dictGet? (runEnd ctx0 st_ab0 [(Key.char 'a', 1)]).back_idxs 1).isSome = true) ↔
      WritesBack ctx0 st_ab0 [(Key.char 'a', 1)] 1 :=
  c8_back_defined ctx0 [(Key.char 'a', 1)] st_ab0 1 (by decide)

/-! List lemmas for the frame-production analysis. -/

theorem getD_set_ne {α : Type} (l : List α) (i j : Nat) (v d : α) (h : j ≠ i) :
    (l.set i v).getD j d = l.getD j d := by
  induction l generalizing i j with
  | nil => simp
  | cons x xs ih =>
    cases i with
    | zero =>
      cases j with
      | zero => exact absurd rfl h
      | succ j => rfl
    | succ i =>
      cases j with
      | zero => rfl
      | succ j => exact ih i j (fun hc => h (by rw [hc]))

theorem set_out_of_range {α : Type} (l : List α) (i : Nat) (v : α) (h : l.length ≤ i) :
    l.set i v = l := by
  induction l generalizing i with
  | nil => rfl
  | cons x xs ih =>
    cases i with
    | zero => simp at h
    | succ i =>
      show x :: xs.set i v = x :: xs
      rw [ih i (by simpa using h)]

theorem getD_set_getD {α : Type} (l : List α) (i j : Nat) (d : α) :
    (l.set i (l.getD i d)).getD j d = l.getD j d := by
  by_cases hij : j = i
  · subst hij
    by_cases hi : j < l.length
    · exact getD_set_self l j _ d hi
    · rw [set_out_of_range l j _ (by omega)]
  · exact getD_set_ne l i j _ d hij

theorem spansMemEq_set_getD (Y : List (List Span)) (li : Nat) :
    spansMemEq (Y.set li (Y.getD li [])) Y :=
  ⟨by simp, fun i sp => by rw [getD_set_getD]⟩

/-- Applying the same `stylize` call twice in a row gives a render-equivalent
overlay: the second call appends a duplicate of a span already present (or
does nothing at all when the span is out of range). -/
theorem spansMemEq_double_stylize (X : List (List Span)) (li plainLen sty a b : Nat) :
    spansMemEq
      ((X.set li (stylize plainLen (X.getD li []) sty a b)).set li
        (stylize plainLen
          ((X.set li (stylize plainLen (X.getD li []) sty a b)).getD li []) sty a b))
      (X.set li (stylize plainLen (X.getD li []) sty a b)) := by
  by_cases hrange : li < X.length
  case neg =>
    have hid : ∀ v : List Span, X.set li v = X :=
      fun v => set_out_of_range X li v (by omega)
    simp only [hid]
    exact ⟨rfl, fun _ _ => Iff.rfl⟩
  case pos =>
    unfold stylize
    by_cases hg : (a ≥ plainLen || b ≤ a) = true
    · rw [if_pos hg, if_pos hg]
      exact spansMemEq_set_getD _ li
    · rw [if_neg hg, if_neg hg]
      have hYget : (X.set li (X.getD li [] ++ [(a, min plainLen b, sty)])).getD li [] =
          X.getD li [] ++ [(a, min plainLen b, sty)] :=
        getD_set_self _ _ _ _ hrange
      rw [hYget]
      have hYlen : li < (X.set li (X.getD li [] ++ [(a, min plainLen b, sty)])).length := by
        simpa using hrange
      refine ⟨by simp, ?_⟩
      intro i sp'
      by_cases hil : i = li
      · subst hil
        rw [getD_set_self _ _ _ _ hYlen, getD_set_self _ _ _ _ hrange]
        simp only [List.mem_append, List.mem_singleton, or_assoc, or_self]
      · rw [getD_set_ne _ _ _ _ _ hil, getD_set_ne _ _ _ _ _ hil]

theorem getD_take {α : Type} (l : List α) (k i : Nat) (d : α) :
    (l.take k).getD i d = if i < k then l.getD i d else d := by
  induction l generalizing k i with
  | nil =>
    rw [List.take_nil]
    split <;> rfl
  | cons x xs ih =>
    cases k with
    | zero => rfl
    | succ k =>
      cases i with
      | zero => simp
      | succ i =>
        show (xs.take k).getD i d = _
        rw [ih]
        simp [Nat.succ_lt_succ_iff]

theorem getD_drop {α : Type} (l : List α) (k i : Nat) (d : α) :
    (l.drop k).getD i d = l.getD (k + i) d := by
  induction l generalizing k with
  | nil => simp
  | cons x xs ih =>
    cases k with
    | zero => simp
    | succ k =>
      show (xs.drop k).getD i d = (x :: xs).getD (k + 1 + i) d
      rw [ih, Nat.succ_add]
      rfl

/-- Python slicing preserves render equivalence of overlays. -/
theorem spansMemEq_pySlice (A B : List (List Span)) (a b : Int)
    (h : spansMemEq A B) :
    spansMemEq (pySlice A a b) (pySlice B a b) := by
  obtain ⟨hlen, hmem⟩ := h
  unfold pySlice
  rw [hlen]
  refine ⟨by simp [hlen], ?_⟩
  intro i sp
  rw [getD_drop, getD_drop, getD_take, getD_take]
  split
  · exact hmem _ sp
  · exact Iff.rfl

/-- C9 (amended): reading the `rich_text` property is repeatable but not
side-effect free.  It leaves the cursor, action log, back references,
session clock, text and layout unchanged, and a second read produces a
frame with the same plain rows and a render-equivalent styling overlay:
the only mutation is that each read appends the cursor-style span for the
cursor's visual cell to the styled line buffer, a duplicate of the span the
first read already added (the claim's "leaves every component unchanged"
fails on the styled line buffers — see the counterexample). -/
theorem c9_frame_read (ctx : Ctx) (s : EngineState) :
    (rich_text ctx ((rich_text ctx s).2)).2.curr_idx = s.curr_idx ∧
    (rich_text ctx ((rich_text ctx s).2)).2.actions = s.actions ∧
    (rich_text ctx ((rich_text ctx s).2)).2.back_idxs = s.back_idxs ∧
    (rich_text ctx ((rich_text ctx s).2)).2.start_ts = s.start_ts ∧
    (rich_text ctx ((rich_text ctx s).2)).2.end_ts = s.end_ts ∧
    (rich_text ctx ((rich_text ctx s).2)).2.text = s.text ∧
    (rich_text ctx ((rich_text ctx s).2)).2.orig_rich_plain = s.orig_rich_plain ∧
    (rich_text ctx ((rich_text ctx s).2)).1.1 = (rich_text ctx s).1.1 ∧
    spansMemEq (rich_text ctx ((rich_text ctx s).2)).1.2 (rich_text ctx s).1.2 ∧
    spansMemEq (rich_text ctx ((rich_text ctx s).2)).2.rich_spans
      (rich_text ctx s).2.rich_spans := by
  have hspans : spansMemEq (rich_text ctx ((rich_text ctx s).2)).2.rich_spans
      (rich_text ctx s).2.rich_spans :=
    spansMemEq_double_stylize s.rich_spans
      (get_rich_line_no s.rich_lines_start_idxs s.curr_idx).1
      ((s.orig_rich_plain.getD
        (get_rich_line_no s.rich_lines_start_idxs s.curr_idx).1 []).length)
      ctx.cursorStyle
      (s.gutter_col_width + (get_rich_line_no s.rich_lines_start_idxs s.curr_idx).2 + 1)
      (s.gutter_col_width + (get_rich_line_no s.rich_lines_start_idxs s.curr_idx).2 + 2)
  refine ⟨rfl, rfl, rfl, rfl, rfl, rfl, rfl, rfl, ?_, hspans⟩
  exact spansMemEq_pySlice _ _ _ _ hspans

end Codetype
